import Mathlib

/-!
Shallow embedding of the openbook-v2 crank configuration code
(configure/openbook-v2/create_markets.ts and the OpenbookConfigurator class),
together with proofs about its provisioning protocol.

Modelling conventions:
* A Solana public key VALUE is an `Addr`.  Program-derived addresses
  (`PublicKey.findProgramAddressSync`) are represented by dedicated injective
  constructors carrying the derivation program id and the seed data, so that
  determinism and seed-wise distinctness of PDAs hold structurally.  The
  4-byte little-endian account-index seed of an open-orders PDA is represented
  by the natural number it encodes.
* A Javascript `PublicKey` OBJECT is a `PubKeyObj`: an object identity `oid`
  plus the key value `val`.  The Javascript strict-equality operator applied
  to two such objects compares references, i.e. the `oid` fields (`jsStrictEq`
  below); comparisons that go through seed bytes or the wire use `val`.
* Remote calls are modelled by the trace of submitted instructions (`Instr`)
  and by explicit threading of the ledger state (`Ledger`, the set of
  addresses at which an account exists).  `connection.getAccountInfo x == null`
  becomes `¬ ledger.hasAccount x`.
* Nondeterministic inputs of `createMarket` (the `Math.random` draw, the three
  freshly allocated account addresses, the freshly generated market keypair)
  are passed explicitly in a `CreateMarketFresh` record.
* `Math.random` returns a real in [0,1); we model the draw as a rational.
  `toFixed(2)` followed by `parseFloat` is `toFixed2ParseFloat` (round to two
  decimal digits, half up, and read the number back).
* Account sizes come from IDL introspection (`getAccountSize`); the model
  keeps the introspected record-type NAME in the allocation instruction and
  never depends on the byte count.
-/

/-- Public-key values.  `key n` is an ordinary keypair-derived address; the
other constructors are the PDA derivations used by this code base, each
carrying the program id it is derived under and its seeds. -/
inductive Addr where
  | key : Nat → Addr
  | stubOracle : Addr → Addr → Addr → Addr
  | marketAuthority : Addr → Addr → Addr
  | openOrdersIndexer : Addr → Addr → Addr
  | openOrders : Addr → Addr → Nat → Addr
  | eventAuthority : Addr → Addr
  | ata : Addr → Addr → Addr
deriving DecidableEq, Repr

/-- A Javascript `PublicKey` object: reference identity plus key value. -/
structure PubKeyObj where
  oid : Nat
  val : Addr
deriving DecidableEq, Repr

/-- Javascript strict equality on two `PublicKey` objects compares
references. -/
def jsStrictEq (a b : PubKeyObj) : Bool :=
  a.oid == b.oid

/-- A keypair: public key value and raw secret bytes. -/
structure Keypair where
  publicKey : Addr
  secretKey : List Nat
deriving DecidableEq, Repr

/-- The anchor `TestProvider`, of which the code only uses the keypair. -/
structure TestProvider where
  keypair : Keypair
deriving DecidableEq, Repr

/-- Ledger state: the set of addresses at which an account exists. -/
structure Ledger where
  accounts : List Addr
deriving DecidableEq, Repr

def Ledger.hasAccount (l : Ledger) (a : Addr) : Bool :=
  l.accounts.contains a

def Ledger.add (l : Ledger) (a : Addr) : Ledger :=
  ⟨a :: l.accounts⟩

/-- Order side, from the ad hoc tagged objects of the source. -/
inductive Side where
  | bid
  | ask
deriving DecidableEq, Repr

/-- Order type tag; the code only ever builds the resting limit variant. -/
inductive OrderType where
  | limit
deriving DecidableEq, Repr

/-- Self-trade behavior tag; the code only ever builds decrementTake. -/
inductive SelfTradeBehavior where
  | decrementTake
deriving DecidableEq, Repr

/-- The `U64_MAX_BN` constant used as the never-expiring timestamp. -/
def U64_MAX : Nat := 2 ^ 64 - 1

/-- Argument record of a `placeOrder` instruction, mirroring the `args`
object literal of `fillOrderBook`. -/
structure PlaceOrderArgs where
  side : Side
  priceLots : Int
  maxBaseLots : Int
  maxQuoteLotsIncludingFees : Int
  clientOrderId : Int
  orderType : OrderType
  expiryTimestamp : Nat
  selfTradeBehavior : SelfTradeBehavior
  limit : Nat
deriving DecidableEq, Repr

/-- Account map of a `placeOrder` instruction.  `userTokenAccount` is an
`Option` because the source can pass `undefined` there (the `.at(0)?.`
optional chain on the sell side). -/
structure PlaceOrderAccounts where
  asks : Addr
  marketVault : Addr
  bids : Addr
  eventHeap : Addr
  market : Addr
  openOrdersAccount : Addr
  oracleA : Addr
  oracleB : Addr
  signer : Addr
  userTokenAccount : Option Addr
  openOrdersAdmin : Option Addr
deriving DecidableEq, Repr

/-- A submitted `placeOrder` instruction: arguments, accounts, signers. -/
structure PlaceOrderIx where
  args : PlaceOrderArgs
  accounts : PlaceOrderAccounts
  signers : List Addr
deriving DecidableEq, Repr

/-- The instructions this code submits to the chain.  Each constructor keeps
the account addresses of the source call, plus the signing keys. -/
inductive Instr where
  | stubOracleCreate (payer oracle mint signer : Addr)
  | stubOracleSet (owner oracle : Addr) (price : ℚ) (signer : Addr)
  | allocAccount (addr : Addr) (recordType : String) (programOwner : Addr)
  | createMarketIx (name : String)
      (market mktAuthority bids asks eventHeap payer baseVault quoteVault
        baseMint quoteMint oracleA oracleB evtAuthority programId : Addr)
      (computeUnits : Nat) (signers : List Addr)
  | createOpenOrdersIndexer (indexer owner payer signer : Addr)
  | createOpenOrdersAccount (label : String)
      (indexer acct market owner : Addr) (delegate : Option Addr)
      (payer signer : Addr)
  | placeOrder (ix : PlaceOrderIx)
deriving DecidableEq, Repr

/-- The `Market` descriptor interface of create_markets.ts.  The two mint
fields keep the `PubKeyObj` they were called with (the same object flows from
the caller through `createMarket` into the descriptor); all other fields are
key values. -/
structure Market where
  name : String
  admin : List Nat
  market_pk : Addr
  oracle_a : Addr
  oracle_b : Addr
  asks : Addr
  bids : Addr
  event_heap : Addr
  base_vault : Addr
  quote_vault : Addr
  base_mint : PubKeyObj
  quote_mint : PubKeyObj
  market_index : Nat
  price : ℚ
deriving DecidableEq, Repr

/-- Nondeterministic inputs of one `createMarket` call: the `Math.random`
draw, the three addresses returned by `createAccount`, and the freshly
generated market identity keypair. -/
structure CreateMarketFresh where
  r : ℚ
  asksAddr : Addr
  bidsAddr : Addr
  eventHeapAddr : Addr
  marketKp : Keypair
deriving DecidableEq, Repr

/-- `getRandomInt` of create_markets.ts: `Math.floor(Math.random() * max) + 100`,
with the random draw `r` passed explicitly. -/
def getRandomInt (max : Nat) (r : ℚ) : Int :=
  ⌊r * (max : ℚ)⌋ + 100

/-- `parseFloat(x.toFixed(2))`: round to two decimal digits (half up) and
read the number back. -/
def toFixed2ParseFloat (q : ℚ) : ℚ :=
  ((⌊q * 100 + 1 / 2⌋ : ℤ) : ℚ) / 100

/-- `createMarket` of create_markets.ts.  Returns the `Market` descriptor,
the trace of submitted instructions in submission order, and the ledger
after the call.  Mirrors the source statement by statement; in particular the
first statement rebinds `adminKp` to `anchorProvider.keypair`, so the
caller-supplied admin keypair argument is shadowed from then on. -/
def createMarket (anchorProvider : TestProvider) (adminKp : Keypair)
    (openbookProgramId : Addr) (baseMint quoteMint : PubKeyObj) (index : Nat)
    (fresh : CreateMarketFresh) (ledger : Ledger) :
    Market × List Instr × Ledger :=
  let adminKp : Keypair := anchorProvider.keypair
  let oracleAId := Addr.stubOracle openbookProgramId adminKp.publicKey baseMint.val
  let oracleBId := Addr.stubOracle openbookProgramId adminKp.publicKey quoteMint.val
  let price := toFixed2ParseFloat ((getRandomInt 1000 fresh.r : ℤ) : ℚ)
  let stepA : List Instr × Ledger :=
    if ledger.hasAccount oracleAId then ([], ledger)
    else ([Instr.stubOracleCreate adminKp.publicKey oracleAId baseMint.val
            adminKp.publicKey], ledger.add oracleAId)
  let ledger1 := stepA.2
  let stepB : List Instr × Ledger :=
    if ledger1.hasAccount oracleBId then ([], ledger1)
    else ([Instr.stubOracleCreate adminKp.publicKey oracleBId quoteMint.val
            adminKp.publicKey], ledger1.add oracleBId)
  let ledger2 := stepB.2
  let setIxs : List Instr :=
    [Instr.stubOracleSet adminKp.publicKey oracleAId price adminKp.publicKey,
     Instr.stubOracleSet adminKp.publicKey oracleBId price adminKp.publicKey]
  let asks := fresh.asksAddr
  let bids := fresh.bidsAddr
  let eventHeap := fresh.eventHeapAddr
  let allocIxs : List Instr :=
    [Instr.allocAccount asks "bookSide" openbookProgramId,
     Instr.allocAccount bids "bookSide" openbookProgramId,
     Instr.allocAccount eventHeap "eventHeap" openbookProgramId]
  let ledger3 := ((ledger2.add asks).add bids).add eventHeap
  let marketPk := fresh.marketKp
  let mktAuthority := Addr.marketAuthority openbookProgramId marketPk.publicKey
  let baseVault := Addr.ata baseMint.val mktAuthority
  let quoteVault := Addr.ata quoteMint.val mktAuthority
  let name := "index " ++ toString index ++ " wrt 0"
  let evtAuthority := Addr.eventAuthority openbookProgramId
  let cmIx := Instr.createMarketIx name marketPk.publicKey mktAuthority bids
    asks eventHeap adminKp.publicKey baseVault quoteVault baseMint.val
    quoteMint.val oracleAId oracleBId evtAuthority openbookProgramId
    10000000 [adminKp.publicKey, marketPk.publicKey]
  let ledger4 := ledger3.add marketPk.publicKey
  ({ name := name
     admin := adminKp.secretKey
     market_pk := marketPk.publicKey
     oracle_a := oracleAId
     oracle_b := oracleBId
     asks := asks
     bids := bids
     event_heap := eventHeap
     base_vault := baseVault
     quote_vault := quoteVault
     base_mint := baseMint
     quote_mint := quoteMint
     market_index := index
     price := price },
   stepA.1 ++ stepB.1 ++ setIxs ++ allocIxs ++ [cmIx],
   ledger4)

/-- `OpenbookConfigurator.configureOpenbookV2`.  The quote mint is the first
element of `mints`; one `createMarket` call is issued per remaining mint,
concurrently via `Promise.all`, with a single freshly generated admin keypair
(`adminKp` here) shared by all calls.  Each call receives its own
nondeterministic `CreateMarketFresh` data, zipped positionally.  Only the
resulting descriptors are collected (`Promise.all` result); a descriptor does
not depend on the ledger, so handing every call the same starting ledger is
faithful despite the concurrency.  `mints = []` would dereference `undefined`
in Javascript and is mapped to the empty result. -/
def configureOpenbookV2 (anchorProvider : TestProvider)
    (openbookProgramId : Addr) (adminKp : Keypair) (mints : List PubKeyObj)
    (freshs : List CreateMarketFresh) (ledger : Ledger) : List Market :=
  match mints with
  | [] => []
  | quoteMint :: rest =>
    (rest.zip freshs).enum.map fun p =>
      (createMarket anchorProvider adminKp openbookProgramId p.2.1 quoteMint
        p.1 p.2.2 ledger).1

/-- The `OpenOrders` handle interface of the configurator. -/
structure OpenOrders where
  market : Addr
  open_orders : Addr
deriving DecidableEq, Repr

/-- `OpenbookConfigurator.configureMarketForUser`: create the open-orders
indexer for the user (unconditionally, no existence check), then one
open-orders account per market with 1-based sequential account index.
Returns the handles and the trace of submitted instructions. -/
def configureMarketForUser (anchorProvider : TestProvider)
    (openbookProgramId : Addr) (user : Keypair) (markets : List Market) :
    List OpenOrders × List Instr :=
  let indexer := Addr.openOrdersIndexer openbookProgramId user.publicKey
  let indexerIx := Instr.createOpenOrdersIndexer indexer user.publicKey
    anchorProvider.keypair.publicKey user.publicKey
  let perMarket : List (OpenOrders × Instr) := markets.enum.map fun p =>
    let accountIndex := p.1 + 1
    let openOrders := Addr.openOrders openbookProgramId user.publicKey accountIndex
    (⟨p.2.market_pk, openOrders⟩,
     Instr.createOpenOrdersAccount "test simulator" indexer openOrders
       p.2.market_pk user.publicKey none anchorProvider.keypair.publicKey
       user.publicKey)
  (perMarket.map Prod.fst, indexerIx :: perMarket.map Prod.snd)

/-- One entry of the `token_data` array of a user (the `User` interface lives in
create_users.ts, outside this directory; only the two fields the configurator
reads are modelled).  The `mint` field keeps the Javascript object, because
`fillOrderBook` compares it with strict equality. -/
structure TokenData where
  mint : PubKeyObj
  token_account : Addr
deriving DecidableEq, Repr

/-- The fields of the `User` record that `fillOrderBook` reads. -/
structure User where
  open_orders : List OpenOrders
  token_data : List TokenData
deriving DecidableEq, Repr

/-- `OpenbookConfigurator.fillOrderBook`: submit `nbOrders` resting bids then
`nbOrders` resting asks.  Returns `none` when the Javascript code would throw
before submitting anything: with `nbOrders > 0` the first loop iteration
evaluates `user.open_orders[marketData.market_index].open_orders` and
`user.token_data[0].token_account`, which throw when the index is out of
bounds.  The ask-side token account is
`user.token_data.filter(x => x.mint === marketData.base_mint).at(0)?.token_account`:
a strict-equality (reference) filter whose empty result flows through the
optional chain as `undefined`. -/
def fillOrderBook (user : User) (userKp : Keypair) (marketData : Market)
    (nbOrders : Nat) : Option (List PlaceOrderIx) :=
  if nbOrders = 0 then some [] else
  match user.open_orders.get? marketData.market_index,
        user.token_data.get? 0 with
  | some oo, some td0 =>
    let bids := (List.range nbOrders).map fun i =>
      { args :=
          { side := Side.bid
            priceLots := 1000 - 1 - (i : Int)
            maxBaseLots := 10
            maxQuoteLotsIncludingFees := 1000000
            clientOrderId := (i : Int)
            orderType := OrderType.limit
            expiryTimestamp := U64_MAX
            selfTradeBehavior := SelfTradeBehavior.decrementTake
            limit := 255 }
        accounts :=
          { asks := marketData.asks
            marketVault := marketData.quote_vault
            bids := marketData.bids
            eventHeap := marketData.event_heap
            market := marketData.market_pk
            openOrdersAccount := oo.open_orders
            oracleA := marketData.oracle_a
            oracleB := marketData.oracle_b
            signer := userKp.publicKey
            userTokenAccount := some td0.token_account
            openOrdersAdmin := none }
        signers := [userKp.publicKey] }
    let asksIxs := (List.range nbOrders).map fun i =>
      { args :=
          { side := Side.ask
            priceLots := 1000 + 1 + (i : Int)
            maxBaseLots := 10000
            maxQuoteLotsIncludingFees := 1000000
            clientOrderId := ((i : Int) + nbOrders + 1)
            orderType := OrderType.limit
            expiryTimestamp := U64_MAX
            selfTradeBehavior := SelfTradeBehavior.decrementTake
            limit := 255 }
        accounts :=
          { asks := marketData.asks
            marketVault := marketData.base_vault
            bids := marketData.bids
            eventHeap := marketData.event_heap
            market := marketData.market_pk
            openOrdersAccount := oo.open_orders
            oracleA := marketData.oracle_a
            oracleB := marketData.oracle_b
            signer := userKp.publicKey
            userTokenAccount :=
              ((user.token_data.filter fun x =>
                  jsStrictEq x.mint marketData.base_mint).head?).map
                TokenData.token_account
            openOrdersAdmin := none }
        signers := [userKp.publicKey] }
    some (bids ++ asksIxs)
  | _, _ => none

/-- Execution semantics of a single instruction against the ledger, as the
deployed program behaves at the granularity this code relies on: every
account-creating instruction is rejected when an account already exists at
the target address (the program refuses re-initialization) and otherwise
brings the account into existence; price-setting and order placement leave
the account set unchanged. -/
def execInstr (l : Ledger) (ix : Instr) : Except String Ledger :=
  match ix with
  | Instr.stubOracleCreate _ oracle _ _ =>
    if l.hasAccount oracle then Except.error "oracle exists"
    else Except.ok (l.add oracle)
  | Instr.stubOracleSet _ _ _ _ => Except.ok l
  | Instr.allocAccount addr _ _ =>
    if l.hasAccount addr then Except.error "account exists"
    else Except.ok (l.add addr)
  | Instr.createMarketIx _ market _ _ _ _ _ _ _ _ _ _ _ _ _ _ _ =>
    if l.hasAccount market then Except.error "market exists"
    else Except.ok (l.add market)
  | Instr.createOpenOrdersIndexer indexer _ _ _ =>
    if l.hasAccount indexer then Except.error "indexer exists"
    else Except.ok (l.add indexer)
  | Instr.createOpenOrdersAccount _ _ acct _ _ _ _ _ =>
    if l.hasAccount acct then Except.error "open orders account exists"
    else Except.ok (l.add acct)
  | Instr.placeOrder _ => Except.ok l

/-- Run a trace of instructions left to right, stopping at the first
rejection. -/
def execTrace (l : Ledger) (t : List Instr) : Except String Ledger :=
  match t with
  | [] => Except.ok l
  | ix :: rest =>
    match execInstr l ix with
    | Except.ok l2 => execTrace l2 rest
    | Except.error e => Except.error e

/-- Oracle addresses targeted by `stubOracleCreate` instructions of a trace,
in submission order. -/
def oracleCreates (t : List Instr) : List Addr :=
  t.filterMap fun ix =>
    match ix with
    | Instr.stubOracleCreate _ oracle _ _ => some oracle
    | _ => none

/-- Oracle addresses targeted by `stubOracleSet` instructions of a trace,
in submission order. -/
def oracleSets (t : List Instr) : List Addr :=
  t.filterMap fun ix =>
    match ix with
    | Instr.stubOracleSet _ oracle _ _ => some oracle
    | _ => none

/-! Concrete fixtures used by witnesses and counterexamples. -/

/-- A concrete provider whose keypair is `(key 1, [11, 12])`. -/
def provA : TestProvider := ⟨⟨Addr.key 1, [11, 12]⟩⟩

/-- A concrete caller-supplied admin keypair, distinct from the provider keypair. -/
def kpB : Keypair := ⟨Addr.key 7, [70, 71]⟩

/-- A concrete mint object. -/
def mintX : PubKeyObj := ⟨3, Addr.key 20⟩

/-- A second concrete mint object. -/
def mintY : PubKeyObj := ⟨4, Addr.key 21⟩

/-- A mint object with the same key VALUE as `mintX` but a different object
identity: a distinct Javascript `PublicKey` instance wrapping the same key. -/
def mintX2 : PubKeyObj := ⟨9, Addr.key 20⟩

/-- Concrete nondeterministic data for one `createMarket` call. -/
def freshF : CreateMarketFresh :=
  ⟨1 / 2, Addr.key 30, Addr.key 31, Addr.key 32, ⟨Addr.key 33, [90, 91]⟩⟩

/-- Concrete nondeterministic data for a second `createMarket` call. -/
def freshG : CreateMarketFresh :=
  ⟨1 / 4, Addr.key 34, Addr.key 35, Addr.key 36, ⟨Addr.key 37, [92, 93]⟩⟩

/-- The empty ledger. -/
def ledger0 : Ledger := ⟨[]⟩

/-- A concrete market descriptor, as used by the filler fixtures. -/
def marketM : Market :=
  { name := "index 0 wrt 0"
    admin := [11, 12]
    market_pk := Addr.key 41
    oracle_a := Addr.key 42
    oracle_b := Addr.key 43
    asks := Addr.key 44
    bids := Addr.key 45
    event_heap := Addr.key 46
    base_vault := Addr.key 47
    quote_vault := Addr.key 48
    base_mint := mintX
    quote_mint := mintY
    market_index := 0
    price := 600 }

/-- A concrete user holding one open-orders handle (whose `market` field,
`key 50`, is NOT the `market_pk` of `marketM`) and one token account whose
mint is the very object `mintX`. -/
def userU : User :=
  ⟨[⟨Addr.key 50, Addr.key 51⟩], [⟨mintX, Addr.key 52⟩]⟩

/-- A concrete user whose only token-data entry wraps the same mint VALUE as
`marketM.base_mint` in a different `PublicKey` object (`mintX2`). -/
def userV : User :=
  ⟨[⟨Addr.key 50, Addr.key 51⟩], [⟨mintX2, Addr.key 52⟩]⟩

/-- The instruction trace submitted by one `createMarket` call. -/
def createMarketTrace (anchorProvider : TestProvider) (adminKp : Keypair)
    (prog : Addr) (b q : PubKeyObj) (index : Nat) (fresh : CreateMarketFresh)
    (ledger : Ledger) : List Instr :=
  (createMarket anchorProvider adminKp prog b q index fresh ledger).2.1

/-- The ledger state after one `createMarket` call. -/
def createMarketLedger (anchorProvider : TestProvider) (adminKp : Keypair)
    (prog : Addr) (b q : PubKeyObj) (index : Nat) (fresh : CreateMarketFresh)
    (ledger : Ledger) : Ledger :=
  (createMarket anchorProvider adminKp prog b q index fresh ledger).2.2

/-! Helper lemmas. -/

/-- Round-tripping an integer through `toFixed(2)` and `parseFloat` leaves it
unchanged. -/
theorem toFixed2ParseFloat_intCast (n : ℤ) :
    toFixed2ParseFloat (n : ℚ) = (n : ℚ) := by
  have h1 : ((n : ℚ)) * 100 + 1 / 2 = ((100 * n : ℤ) : ℚ) + 1 / 2 := by
    push_cast
    ring
  have h3 : ⌊(1 : ℚ) / 2⌋ = 0 := by norm_num [Int.floor_eq_zero_iff]
  unfold toFixed2ParseFloat
  rw [h1, Int.floor_int_add, h3]
  push_cast
  ring

/-- The price field of the descriptor returned by `createMarket` is the
round-tripped random reference price. -/
theorem createMarket_price_def (anchorProvider : TestProvider)
    (adminKp : Keypair) (prog : Addr) (b q : PubKeyObj) (index : Nat)
    (fresh : CreateMarketFresh) (ledger : Ledger) :
    (createMarket anchorProvider adminKp prog b q index fresh ledger).1.price
      = toFixed2ParseFloat ((getRandomInt 1000 fresh.r : ℤ) : ℚ) := rfl

/-- C10: for every random draw r in [0,1), the synthetic reference price
computed by `createMarket` equals `⌊r * 1000⌋ + 100`, an integer between 100
and 1099 inclusive; in particular the `toFixed(2)` / `parseFloat` round trip
leaves the integer unchanged, so the price carries no fractional decimal
digits and is never below 100. -/
theorem createMarket_price_range (anchorProvider : TestProvider)
    (adminKp : Keypair) (prog : Addr) (b q : PubKeyObj) (index : Nat)
    (fresh : CreateMarketFresh) (ledger : Ledger)
    (h0 : 0 ≤ fresh.r) (h1 : fresh.r < 1) :
    (createMarket anchorProvider adminKp prog b q index fresh ledger).1.price
        = ((⌊fresh.r * 1000⌋ + 100 : ℤ) : ℚ) ∧
    (100 : ℚ) ≤ (createMarket anchorProvider adminKp prog b q index fresh ledger).1.price ∧
    (createMarket anchorProvider adminKp prog b q index fresh ledger).1.price ≤ 1099 ∧
    ∃ n : ℤ, (createMarket anchorProvider adminKp prog b q index fresh ledger).1.price = (n : ℚ) := by
  have hdef := createMarket_price_def anchorProvider adminKp prog b q index fresh ledger
  have hval : (createMarket anchorProvider adminKp prog b q index fresh ledger).1.price
      = ((⌊fresh.r * 1000⌋ + 100 : ℤ) : ℚ) := by
    rw [hdef, toFixed2ParseFloat_intCast]
    norm_num [getRandomInt]
  have hlow : (0 : ℤ) ≤ ⌊fresh.r * 1000⌋ := by
    apply Int.floor_nonneg.mpr
    positivity
  have hhigh : ⌊fresh.r * 1000⌋ < 1000 := by
    apply Int.floor_lt.mpr
    push_cast
    nlinarith
  refine ⟨hval, ?_, ?_, ⟨⌊fresh.r * 1000⌋ + 100, hval⟩⟩
  · rw [hval]
    have : (100 : ℤ) ≤ ⌊fresh.r * 1000⌋ + 100 := by omega
    exact_mod_cast this
  · rw [hval]
    have : ⌊fresh.r * 1000⌋ + 100 ≤ (1099 : ℤ) := by omega
    exact_mod_cast this

/-- Witness for C10 at the concrete draw r = 1/2: the returned price is 600. -/
theorem createMarket_price_range_witness :
    0 ≤ freshF.r ∧ freshF.r < 1 ∧
    (createMarket provA kpB (Addr.key 2) mintX mintY 0 freshF ledger0).1.price = 600 := by
  refine ⟨by norm_num [freshF], by norm_num [freshF], ?_⟩
  have h := createMarket_price_range provA kpB (Addr.key 2) mintX mintY 0 freshF
    ledger0 (by norm_num [freshF]) (by norm_num [freshF])
  rw [h.1]
  norm_num [freshF]

/-- C1 counterexample: at a concrete input where the provider keypair and the
freshly generated market identity keypair have different secret bytes, the
admin field of the returned descriptor is NOT the secret key material of the
one-time market identity keypair. -/
theorem createMarket_admin_not_market_secret :
    (createMarket provA kpB (Addr.key 2) mintX mintY 0 freshF ledger0).1.admin
        ≠ freshF.marketKp.secretKey ∧
    (createMarket provA kpB (Addr.key 2) mintX mintY 0 freshF ledger0).1.admin
        = provA.keypair.secretKey := by
  constructor
  · decide
  · rfl

/-- C1 (amended): the admin field of the descriptor returned by
`createMarket` embeds the raw secret key material of the PROVIDER keypair
(`anchorProvider.keypair`, which the function substitutes for its admin
argument and which co-signs the create-market transaction), not that of the
one-time market identity keypair. -/
theorem createMarket_admin_field (anchorProvider : TestProvider)
    (adminKp : Keypair) (prog : Addr) (b q : PubKeyObj) (index : Nat)
    (fresh : CreateMarketFresh) (ledger : Ledger) :
    (createMarket anchorProvider adminKp prog b q index fresh ledger).1.admin
      = anchorProvider.keypair.secretKey := rfl

/-- C2 counterexample: at a concrete input where the caller-supplied admin
keypair (`kpB`, public key `key 7`) differs from the provider keypair (public
key `key 1`), the first submitted instruction derives the oracle from the
PROVIDER public key and is signed by it, and the oracle address recorded in
the descriptor is not the one derived from the supplied admin key. -/
theorem createMarket_ignores_admin_argument :
    (createMarket provA kpB (Addr.key 2) mintX mintY 0 freshF ledger0).2.1.head?
        = some (Instr.stubOracleCreate (Addr.key 1)
            (Addr.stubOracle (Addr.key 2) (Addr.key 1) (Addr.key 20))
            (Addr.key 20) (Addr.key 1)) ∧
    (createMarket provA kpB (Addr.key 2) mintX mintY 0 freshF ledger0).1.oracle_a
        ≠ Addr.stubOracle (Addr.key 2) kpB.publicKey mintX.val ∧
    kpB.publicKey ≠ Addr.key 1 := by
  refine ⟨by decide, by decide, by decide⟩

/-- C2 (amended): `createMarket` rebinds its admin argument to
`anchorProvider.keypair` before any use, so the two oracle addresses are
derived from the seeds (StubOracle, provider public key, mint), every
stub-oracle create and price-set instruction is signed by the provider
keypair, and the whole call result is independent of the admin keypair
argument. -/
theorem createMarket_uses_provider_keypair (anchorProvider : TestProvider)
    (adminKp : Keypair) (prog : Addr) (b q : PubKeyObj) (index : Nat)
    (fresh : CreateMarketFresh) (ledger : Ledger) :
    ((createMarket anchorProvider adminKp prog b q index fresh ledger).1.oracle_a
        = Addr.stubOracle prog anchorProvider.keypair.publicKey b.val) ∧
    ((createMarket anchorProvider adminKp prog b q index fresh ledger).1.oracle_b
        = Addr.stubOracle prog anchorProvider.keypair.publicKey q.val) ∧
    (∀ payer oracle mint s,
      Instr.stubOracleCreate payer oracle mint s
          ∈ (createMarket anchorProvider adminKp prog b q index fresh ledger).2.1 →
        s = anchorProvider.keypair.publicKey ∧
        payer = anchorProvider.keypair.publicKey) ∧
    (∀ owner oracle p s,
      Instr.stubOracleSet owner oracle p s
          ∈ (createMarket anchorProvider adminKp prog b q index fresh ledger).2.1 →
        s = anchorProvider.keypair.publicKey ∧
        owner = anchorProvider.keypair.publicKey) ∧
    (∀ adminKp2 : Keypair,
      createMarket anchorProvider adminKp2 prog b q index fresh ledger
        = createMarket anchorProvider adminKp prog b q index fresh ledger) := by
  refine ⟨rfl, rfl, ?_, ?_, fun _ => rfl⟩
  · intro payer oracle mint s hmem
    unfold createMarket at hmem
    simp only at hmem
    split_ifs at hmem <;> simp_all <;> tauto
  · intro owner oracle p s hmem
    unfold createMarket at hmem
    simp only at hmem
    split_ifs at hmem <;> simp_all <;> tauto

/-- C4: for every order count N, a successful `fillOrderBook` run submits
exactly N buy orders followed by exactly N sell orders, never interleaved;
buy order i (0-indexed) has price 1000 - 1 - i, 10 base lots, quote cap
1000000 and client id i, and sell order i has price 1000 + 1 + i, 10000
base lots, quote cap 1000000 and client id i + N + 1. -/
theorem fillOrderBook_ladder (user : User) (userKp : Keypair)
    (marketData : Market) (N : Nat) (l : List PlaceOrderIx)
    (h : fillOrderBook user userKp marketData N = some l) :
    l.length = 2 * N ∧
    (∀ i, i < N →
      (l[i]?).map (fun ix =>
          (ix.args.side, ix.args.priceLots, ix.args.maxBaseLots,
           ix.args.maxQuoteLotsIncludingFees, ix.args.clientOrderId))
        = some (Side.bid, 1000 - 1 - (i : Int), 10, 1000000, (i : Int))) ∧
    (∀ i, i < N →
      (l[N + i]?).map (fun ix =>
          (ix.args.side, ix.args.priceLots, ix.args.maxBaseLots,
           ix.args.maxQuoteLotsIncludingFees, ix.args.clientOrderId))
        = some (Side.ask, 1000 + 1 + (i : Int), 10000, 1000000,
            (i : Int) + N + 1)) := by
  unfold fillOrderBook at h
  by_cases hN : N = 0
  · subst hN
    rw [if_pos rfl] at h
    obtain rfl := Option.some.inj h
    exact ⟨rfl, fun i hi => absurd hi (by omega), fun i hi => absurd hi (by omega)⟩
  · rw [if_neg hN] at h
    rcases hoo : user.open_orders.get? marketData.market_index with _ | oo
    · rw [hoo] at h
      rcases htd : user.token_data.get? 0 with _ | td0 <;> rw [htd] at h <;>
        simp at h
    rw [hoo] at h
    rcases htd : user.token_data.get? 0 with _ | td0
    · rw [htd] at h
      simp at h
    rw [htd] at h
    simp only [Option.some.injEq] at h
    subst h
    refine ⟨?_, ?_, ?_⟩
    · simp only [List.length_append, List.length_map, List.length_range]
      omega
    · intro i hi
      rw [List.getElem?_append_left (by simpa using hi)]
      simp [List.getElem?_map, List.getElem?_range hi]
    · intro i hi
      rw [List.getElem?_append_right (by simpa using Nat.le_add_right N i)]
      simp [List.getElem?_map, List.length_map, List.length_range,
        Nat.add_sub_cancel_left, List.getElem?_range hi]

/-- Witness for C4 at N = 3 on a concrete user and market: the run succeeds
and the submitted trace has length 6, with the first buy at price 999 and
client id 0 and the last sell at price 1003 and client id 6. -/
theorem fillOrderBook_ladder_witness :
    fillOrderBook userU kpB marketM 3
      = some ((fillOrderBook userU kpB marketM 3).getD []) ∧
    ((fillOrderBook userU kpB marketM 3).getD []).length = 2 * 3 ∧
    (((fillOrderBook userU kpB marketM 3).getD [])[0]?).map (fun ix =>
        (ix.args.side, ix.args.priceLots, ix.args.maxBaseLots,
         ix.args.maxQuoteLotsIncludingFees, ix.args.clientOrderId))
      = some (Side.bid, 999, 10, 1000000, 0) ∧
    (((fillOrderBook userU kpB marketM 3).getD [])[3 + 2]?).map (fun ix =>
        (ix.args.side, ix.args.priceLots, ix.args.maxBaseLots,
         ix.args.maxQuoteLotsIncludingFees, ix.args.clientOrderId))
      = some (Side.ask, 1003, 10000, 1000000, 6) := by
  have h := fillOrderBook_ladder userU kpB marketM 3
    ((fillOrderBook userU kpB marketM 3).getD []) rfl
  refine ⟨rfl, h.1, ?_, ?_⟩
  · have := h.2.1 0 (by omega)
    simpa using this
  · have := h.2.2 2 (by omega)
    simpa using this

/-- Taking the first element of a filtered list is the same as `find?`. -/
theorem head?_filter_eq_find? {α : Type} (p : α → Bool) (l : List α) :
    (l.filter p).head? = l.find? p := by
  induction l with
  | nil => rfl
  | cons a as ih =>
    by_cases hpa : p a
    · simp [List.filter_cons, List.find?_cons, hpa]
    · simp only [List.filter_cons, List.find?_cons]
      rw [if_neg hpa]
      simp only [Bool.not_eq_true] at hpa
      rw [hpa]
      exact ih

/-- C3 counterexample: `userV` holds a token account for the same mint VALUE
as the base mint of `marketM` (both wrap `key 20`), yet because the two
`PublicKey` objects are distinct the strict-equality filter finds nothing and
the sell order is submitted with NO user token account instead of `key 52`. -/
theorem fillOrderBook_sell_value_equal_mint_missed :
    (userV.token_data.map fun td => td.mint.val).contains marketM.base_mint.val
        = true ∧
    ((fillOrderBook userV kpB marketM 1).bind fun l => l[1]?).map
        (fun ix => ix.accounts.userTokenAccount) = some none ∧
    ((fillOrderBook userV kpB marketM 1).bind fun l => l[1]?).map
        (fun ix => ix.accounts.userTokenAccount)
      ≠ some (some (Addr.key 52)) := by
  refine ⟨by decide, by decide, by decide⟩

/-- C3 (amended): for every sell-order submission in `fillOrderBook`, the
user token account passed is the token account of the first `token_data`
entry whose mint is the SAME `PublicKey` OBJECT (Javascript strict equality)
as the `base_mint` field of the market descriptor, or undefined when no entry
is reference-identical — an entry that merely wraps an equal mint value is
not matched; for buys it is the `token_data[0]` account. -/
theorem fillOrderBook_sell_token_account (user : User) (userKp : Keypair)
    (marketData : Market) (N : Nat) (l : List PlaceOrderIx)
    (h : fillOrderBook user userKp marketData N = some l) :
    (∀ i, i < N →
      (l[N + i]?).map (fun ix => ix.accounts.userTokenAccount)
        = some ((user.token_data.find? fun x =>
            jsStrictEq x.mint marketData.base_mint).map TokenData.token_account)) ∧
    (∀ i, i < N →
      (l[i]?).map (fun ix => ix.accounts.userTokenAccount)
        = some ((user.token_data.get? 0).map TokenData.token_account)) := by
  unfold fillOrderBook at h
  by_cases hN : N = 0
  · subst hN
    rw [if_pos rfl] at h
    obtain rfl := Option.some.inj h
    exact ⟨fun i hi => absurd hi (by omega), fun i hi => absurd hi (by omega)⟩
  · rw [if_neg hN] at h
    rcases hoo : user.open_orders.get? marketData.market_index with _ | oo
    · rw [hoo] at h
      rcases htd : user.token_data.get? 0 with _ | td0 <;> rw [htd] at h <;>
        simp at h
    rw [hoo] at h
    rcases htd : user.token_data.get? 0 with _ | td0
    · rw [htd] at h
      simp at h
    rw [htd] at h
    simp only [Option.some.injEq] at h
    subst h
    constructor
    · intro i hi
      rw [List.getElem?_append_right (by simpa using Nat.le_add_right N i)]
      simp [List.getElem?_map, List.length_map, List.length_range,
        Nat.add_sub_cancel_left, List.getElem?_range hi, head?_filter_eq_find?]
    · intro i hi
      rw [List.getElem?_append_left (by simpa using hi)]
      simp [List.getElem?_map, List.getElem?_range hi, htd]

/-- Witness for the amended C3 at a concrete input where the only token-data
entry wraps the very same `PublicKey` object as the base mint of the market:
the sell order at position N + 0 carries that token account. -/
theorem fillOrderBook_sell_token_account_witness :
    (((fillOrderBook userU kpB marketM 1).getD [])[1 + 0]?).map
        (fun ix => ix.accounts.userTokenAccount)
      = some ((userU.token_data.find? fun x =>
          jsStrictEq x.mint marketM.base_mint).map TokenData.token_account) :=
  (fillOrderBook_sell_token_account userU kpB marketM 1
    ((fillOrderBook userU kpB marketM 1).getD []) rfl).1 0 (by omega)

/-- C9: every order submitted by `fillOrderBook` names the open-orders
account found at POSITION `marketData.market_index` of the open-orders array
of the user; the run succeeds and submits the full ladder without any check
that the `market` field of that handle matches the market being filled. -/
theorem fillOrderBook_positional_open_orders (user : User) (userKp : Keypair)
    (marketData : Market) (N : Nat) (oo : OpenOrders) (td0 : TokenData)
    (hoo : user.open_orders.get? marketData.market_index = some oo)
    (htd : user.token_data.get? 0 = some td0) :
    ∃ l, fillOrderBook user userKp marketData N = some l ∧
      l.length = 2 * N ∧
      ∀ ix ∈ l, ix.accounts.openOrdersAccount = oo.open_orders := by
  by_cases hN : N = 0
  · subst hN
    refine ⟨[], ?_, rfl, fun ix hix => absurd hix (by simp)⟩
    unfold fillOrderBook
    rw [if_pos rfl]
  · rcases hfb : fillOrderBook user userKp marketData N with _ | l
    · exfalso
      unfold fillOrderBook at hfb
      rw [if_neg hN, hoo, htd] at hfb
      simp at hfb
    · have hstruct := hfb
      unfold fillOrderBook at hstruct
      rw [if_neg hN, hoo, htd] at hstruct
      obtain rfl := Option.some.inj hstruct
      refine ⟨_, rfl, ?_, ?_⟩
      · simp only [List.length_append, List.length_map, List.length_range]
        omega
      · intro ix hix
        rcases List.mem_append.mp hix with hmem | hmem <;>
          · obtain ⟨i, _, rfl⟩ := List.mem_map.mp hmem
            rfl

/-- Witness for C9 at a concrete input where the positional handle refers to
a DIFFERENT market (`key 50`) than the one being filled (`key 41`): the run
still succeeds and every order names that handle. -/
theorem fillOrderBook_positional_open_orders_witness :
    (Addr.key 50 ≠ marketM.market_pk ∧
      userU.open_orders.get? marketM.market_index
        = some ⟨Addr.key 50, Addr.key 51⟩) ∧
    ∃ l, fillOrderBook userU kpB marketM 1 = some l ∧
      l.length = 2 * 1 ∧
      ∀ ix ∈ l, ix.accounts.openOrdersAccount
        = (⟨Addr.key 50, Addr.key 51⟩ : OpenOrders).open_orders :=
  ⟨⟨by decide, by decide⟩,
   fillOrderBook_positional_open_orders userU kpB marketM 1
     ⟨Addr.key 50, Addr.key 51⟩ ⟨mintX, Addr.key 52⟩ (by decide) (by decide)⟩

/-- C6: for every user and ordered market list, `configureMarketForUser`
returns one handle per market where the i-th handle pairs the address of the
i-th market with the OpenOrders PDA derived from the user public key and the
1-based sequential index i + 1 (encoded as 4-byte little-endian in the seed);
every creation instruction carries the label "test simulator" and no
delegate. -/
theorem configureMarketForUser_handles (anchorProvider : TestProvider)
    (prog : Addr) (user : Keypair) (markets : List Market) :
    ((configureMarketForUser anchorProvider prog user markets).1.length
        = markets.length) ∧
    (∀ i, i < markets.length →
      ((configureMarketForUser anchorProvider prog user markets).1)[i]?
        = (markets[i]?).map fun m =>
            ⟨m.market_pk, Addr.openOrders prog user.publicKey (i + 1)⟩) ∧
    (∀ label idx acct mkt owner del payer s,
      Instr.createOpenOrdersAccount label idx acct mkt owner del payer s
          ∈ (configureMarketForUser anchorProvider prog user markets).2 →
        label = "test simulator" ∧ del = none) := by
  refine ⟨?_, ?_, ?_⟩
  · simp [configureMarketForUser, List.enum_length]
  · intro i hi
    simp only [configureMarketForUser, List.getElem?_map, List.getElem?_enum]
    rcases hm : markets[i]? with _ | m <;> simp [hm]
  · intro label idx acct mkt owner del payer s hmem
    simp only [configureMarketForUser, List.mem_cons, List.mem_map] at hmem
    rcases hmem with heq | hmem2
    · simp at heq
    · obtain ⟨p, hpl, heq⟩ := hmem2
      obtain ⟨a, hab, hp⟩ := hpl
      subst hp
      obtain ⟨h1, h2, h3, h4, h5, h6, h7, h8⟩ :=
        Instr.createOpenOrdersAccount.inj heq
      exact ⟨h1.symm, h6.symm⟩

/-- Witness for C6 on the one-market list `[marketM]`: the first handle is
the pair of the market address and the OpenOrders PDA with index 1. -/
theorem configureMarketForUser_handles_witness :
    ((configureMarketForUser provA (Addr.key 2) kpB [marketM]).1)[0]?
      = some ⟨marketM.market_pk, Addr.openOrders (Addr.key 2) kpB.publicKey 1⟩ := by
  have h := (configureMarketForUser_handles provA (Addr.key 2) kpB [marketM]).2.1
    0 (by simp)
  rw [h]
  rfl

/-- Executing one instruction can only grow the set of existing accounts. -/
theorem execInstr_mono (l l2 : Ledger) (ix : Instr) (a : Addr)
    (h : execInstr l ix = Except.ok l2) (ha : l.hasAccount a = true) :
    l2.hasAccount a = true := by
  cases ix <;> simp only [execInstr] at h
  case stubOracleSet =>
    obtain rfl := Except.ok.inj h
    exact ha
  case placeOrder =>
    obtain rfl := Except.ok.inj h
    exact ha
  all_goals
    split_ifs at h with hc
    obtain rfl := Except.ok.inj h
    simp only [Ledger.hasAccount, Ledger.add, List.contains_cons]
    have hmem : a ∈ l.accounts := by simpa [Ledger.hasAccount] using ha
    simp [hmem]

/-- Executing a trace can only grow the set of existing accounts. -/
theorem execTrace_mono (t : List Instr) (l l2 : Ledger) (a : Addr)
    (h : execTrace l t = Except.ok l2) (ha : l.hasAccount a = true) :
    l2.hasAccount a = true := by
  induction t generalizing l with
  | nil =>
    simp only [execTrace] at h
    obtain rfl := Except.ok.inj h
    exact ha
  | cons ix rest ih =>
    simp only [execTrace] at h
    rcases hstep : execInstr l ix with e | lmid <;> rw [hstep] at h
    · exact absurd h (by simp)
    · exact ih lmid h (execInstr_mono l lmid ix a hstep ha)

/-- C7: `configureMarketForUser` submits the create-indexer instruction
unconditionally as its first instruction (no existence check precedes it),
so against a ledger that rejects re-initialization, a second invocation for
the same user fails rather than silently succeeding. -/
theorem configureMarketForUser_indexer_not_idempotent
    (anchorProvider : TestProvider) (prog : Addr) (user : Keypair)
    (markets1 markets2 : List Market) (l0 l1 : Ledger)
    (h : execTrace l0 (configureMarketForUser anchorProvider prog user markets1).2
          = Except.ok l1) :
    ((configureMarketForUser anchorProvider prog user markets2).2.head?
        = some (Instr.createOpenOrdersIndexer
            (Addr.openOrdersIndexer prog user.publicKey) user.publicKey
            anchorProvider.keypair.publicKey user.publicKey)) ∧
    ∃ e, execTrace l1 (configureMarketForUser anchorProvider prog user markets2).2
          = Except.error e := by
  refine ⟨rfl, ?_⟩
  have hpda : l1.hasAccount (Addr.openOrdersIndexer prog user.publicKey) = true := by
    rw [configureMarketForUser] at h
    simp only [execTrace] at h
    rcases hstep : execInstr l0 (Instr.createOpenOrdersIndexer
        (Addr.openOrdersIndexer prog user.publicKey) user.publicKey
        anchorProvider.keypair.publicKey user.publicKey) with e | lmid <;>
      rw [hstep] at h
    · exact absurd h (by simp)
    · have hmid : lmid.hasAccount (Addr.openOrdersIndexer prog user.publicKey) = true := by
        simp only [execInstr] at hstep
        split_ifs at hstep with hc
        obtain rfl := Except.ok.inj hstep
        simp [Ledger.hasAccount, Ledger.add, List.contains_cons]
      exact execTrace_mono _ lmid l1 _ h hmid
  rw [configureMarketForUser]
  simp only [execTrace, execInstr]
  rw [if_pos hpda]
  exact ⟨_, rfl⟩

/-- Witness for C7: running the registrar trace for the same user twice from
the empty ledger, the first run succeeds and the second is rejected. -/
theorem configureMarketForUser_indexer_not_idempotent_witness :
    execTrace ledger0 (configureMarketForUser provA (Addr.key 2) kpB []).2
        = Except.ok ⟨[Addr.openOrdersIndexer (Addr.key 2) kpB.publicKey]⟩ ∧
    ∃ e, execTrace ⟨[Addr.openOrdersIndexer (Addr.key 2) kpB.publicKey]⟩
        (configureMarketForUser provA (Addr.key 2) kpB []).2 = Except.error e :=
  ⟨rfl,
   (configureMarketForUser_indexer_not_idempotent provA (Addr.key 2) kpB [] []
      ledger0 ⟨[Addr.openOrdersIndexer (Addr.key 2) kpB.publicKey]⟩ rfl).2⟩

/-- C8: with the first mint as quote mint, `configureOpenbookV2` creates one
market per remaining mint (given one fresh-data record per market); the
descriptor for the i-th non-quote mint has `market_index` i, `base_mint`
that mint and `quote_mint` the first mint, so `market_index` values within
the batch are exactly 0, ..., n-1 in request order. -/
theorem configureOpenbookV2_indices (anchorProvider : TestProvider)
    (prog : Addr) (adminKp : Keypair) (q : PubKeyObj) (rest : List PubKeyObj)
    (freshs : List CreateMarketFresh) (ledger : Ledger)
    (hlen : freshs.length = rest.length) :
    ((configureOpenbookV2 anchorProvider prog adminKp (q :: rest) freshs ledger).length
        = rest.length) ∧
    ((configureOpenbookV2 anchorProvider prog adminKp (q :: rest) freshs ledger).map
        Market.market_index = List.range rest.length) ∧
    (∀ i, i < rest.length →
      ((configureOpenbookV2 anchorProvider prog adminKp (q :: rest) freshs ledger)[i]?).map
          (fun m => (m.market_index, m.base_mint, m.quote_mint))
        = (rest[i]?).map fun mint => (i, mint, q)) := by
  have hzip : ∀ i (hi : i < rest.length),
      (rest.zip freshs)[i]? = some (rest[i], freshs[i]) := by
    intro i hi
    have hif : i < freshs.length := by omega
    rw [List.getElem?_zip_eq_some]
    exact ⟨List.getElem?_eq_getElem hi, List.getElem?_eq_getElem hif⟩
  have hlenL : (configureOpenbookV2 anchorProvider prog adminKp (q :: rest)
      freshs ledger).length = rest.length := by
    simp [configureOpenbookV2, List.enum_length, List.length_zip, hlen]
  have hmem : ∀ i (hi : i < rest.length),
      (configureOpenbookV2 anchorProvider prog adminKp (q :: rest) freshs ledger)[i]?
        = some ((createMarket anchorProvider adminKp prog (rest[i]) q i
            (freshs[i]) ledger).1) := by
    intro i hi
    simp only [configureOpenbookV2, List.getElem?_map, List.getElem?_enum,
      hzip i hi]
    rfl
  refine ⟨hlenL, ?_, ?_⟩
  · apply List.ext_getElem?
    intro i
    by_cases hi : i < rest.length
    · rw [List.getElem?_map, hmem i hi, List.getElem?_range hi]
      rfl
    · rw [List.getElem?_eq_none (by simpa [hlenL] using Nat.le_of_not_lt hi),
        List.getElem?_eq_none (by simpa [List.length_range] using Nat.le_of_not_lt hi)]
  · intro i hi
    rw [hmem i hi, List.getElem?_eq_getElem hi]
    rfl

/-- Witness for C8 with quote mint `mintY` and non-quote mints
`[mintX, mintX2]`: the two descriptors carry market indices 0 and 1. -/
theorem configureOpenbookV2_indices_witness :
    (configureOpenbookV2 provA (Addr.key 2) kpB [mintY, mintX, mintX2]
        [freshF, freshG] ledger0).map Market.market_index = List.range 2 :=
  (configureOpenbookV2_indices provA (Addr.key 2) kpB mintY [mintX, mintX2]
    [freshF, freshG] ledger0 rfl).2.1

/-- Characterization of the oracle instructions of one `createMarket` trace:
a create for each of the two derived addresses exactly when the ledger at
check time has no account there, and one price-set for each of the two
derived addresses. -/
theorem createMarket_oracle_trace (anchorProvider : TestProvider)
    (adminKp : Keypair) (prog : Addr) (b q : PubKeyObj) (index : Nat)
    (fresh : CreateMarketFresh) (ledger : Ledger) :
    oracleCreates (createMarketTrace anchorProvider adminKp prog b q index fresh ledger)
      = (if ledger.hasAccount
            (Addr.stubOracle prog anchorProvider.keypair.publicKey b.val)
         then []
         else [Addr.stubOracle prog anchorProvider.keypair.publicKey b.val])
        ++ (if (if ledger.hasAccount
                  (Addr.stubOracle prog anchorProvider.keypair.publicKey b.val)
                then ledger
                else ledger.add
                  (Addr.stubOracle prog anchorProvider.keypair.publicKey b.val)).hasAccount
                (Addr.stubOracle prog anchorProvider.keypair.publicKey q.val)
            then []
            else [Addr.stubOracle prog anchorProvider.keypair.publicKey q.val]) ∧
    oracleSets (createMarketTrace anchorProvider adminKp prog b q index fresh ledger)
      = [Addr.stubOracle prog anchorProvider.keypair.publicKey b.val,
         Addr.stubOracle prog anchorProvider.keypair.publicKey q.val] := by
  unfold createMarketTrace createMarket
  dsimp only
  split_ifs <;> exact ⟨rfl, rfl⟩

/-- After `createMarket`, both derived oracle addresses exist on the ledger,
and every address that existed before still exists. -/
theorem createMarket_ledger_facts (anchorProvider : TestProvider)
    (adminKp : Keypair) (prog : Addr) (b q : PubKeyObj) (index : Nat)
    (fresh : CreateMarketFresh) (ledger : Ledger) :
    ((createMarketLedger anchorProvider adminKp prog b q index fresh ledger).hasAccount
        (Addr.stubOracle prog anchorProvider.keypair.publicKey b.val) = true) ∧
    ((createMarketLedger anchorProvider adminKp prog b q index fresh ledger).hasAccount
        (Addr.stubOracle prog anchorProvider.keypair.publicKey q.val) = true) := by
  unfold createMarketLedger createMarket
  dsimp only
  split_ifs with h1 h2 h2 <;>
    constructor <;>
      simp_all [Ledger.add, Ledger.hasAccount, List.contains_cons]

/-- C5 counterexample: when base and quote mint coincide (here both are
`mintX`, key value `key 20`), the two oracle handles resolve to the SAME
address, and a single `createMarket` invocation submits TWO price-set
instructions for that one address, not exactly one. -/
theorem createMarket_same_mint_two_price_sets :
    (oracleSets (createMarketTrace provA kpB (Addr.key 2) mintX mintX 0 freshF
        ledger0)).count
        (Addr.stubOracle (Addr.key 2) (Addr.key 1) (Addr.key 20)) = 2 ∧
    ¬ (oracleSets (createMarketTrace provA kpB (Addr.key 2) mintX mintX 0 freshF
        ledger0)).count
        (Addr.stubOracle (Addr.key 2) (Addr.key 1) (Addr.key 20)) = 1 := by
  refine ⟨by decide, by decide⟩

/-- C5 (amended): provided the base and quote mints are distinct (when they
coincide the single shared oracle address receives two price-set calls per
invocation), for each of the two oracle addresses handled by `createMarket`
a create-oracle instruction is submitted exactly when the ledger reports no
account at that address, and exactly one set-oracle-price instruction is
submitted for each; two sequential invocations for the same (admin, mint)
pair hence perform at most one creation call and exactly two price-set
calls. -/
theorem createMarket_oracle_idempotent (anchorProvider : TestProvider)
    (adminKp : Keypair) (prog : Addr) (b q : PubKeyObj) (i1 i2 : Nat)
    (f1 f2 : CreateMarketFresh) (ledger : Ledger) (hbq : b.val ≠ q.val) :
    ((Addr.stubOracle prog anchorProvider.keypair.publicKey b.val)
        ∈ oracleCreates (createMarketTrace anchorProvider adminKp prog b q i1 f1 ledger)
      ↔ ledger.hasAccount
          (Addr.stubOracle prog anchorProvider.keypair.publicKey b.val) = false) ∧
    ((Addr.stubOracle prog anchorProvider.keypair.publicKey q.val)
        ∈ oracleCreates (createMarketTrace anchorProvider adminKp prog b q i1 f1 ledger)
      ↔ ledger.hasAccount
          (Addr.stubOracle prog anchorProvider.keypair.publicKey q.val) = false) ∧
    (oracleSets (createMarketTrace anchorProvider adminKp prog b q i1 f1 ledger)
      = [Addr.stubOracle prog anchorProvider.keypair.publicKey b.val,
         Addr.stubOracle prog anchorProvider.keypair.publicKey q.val]) ∧
    ((oracleCreates (createMarketTrace anchorProvider adminKp prog b q i1 f1 ledger
          ++ createMarketTrace anchorProvider adminKp prog b q i2 f2
              (createMarketLedger anchorProvider adminKp prog b q i1 f1 ledger))).count
        (Addr.stubOracle prog anchorProvider.keypair.publicKey b.val) ≤ 1) ∧
    ((oracleCreates (createMarketTrace anchorProvider adminKp prog b q i1 f1 ledger
          ++ createMarketTrace anchorProvider adminKp prog b q i2 f2
              (createMarketLedger anchorProvider adminKp prog b q i1 f1 ledger))).count
        (Addr.stubOracle prog anchorProvider.keypair.publicKey q.val) ≤ 1) ∧
    ((oracleSets (createMarketTrace anchorProvider adminKp prog b q i1 f1 ledger
          ++ createMarketTrace anchorProvider adminKp prog b q i2 f2
              (createMarketLedger anchorProvider adminKp prog b q i1 f1 ledger))).count
        (Addr.stubOracle prog anchorProvider.keypair.publicKey b.val) = 2) ∧
    ((oracleSets (createMarketTrace anchorProvider adminKp prog b q i1 f1 ledger
          ++ createMarketTrace anchorProvider adminKp prog b q i2 f2
              (createMarketLedger anchorProvider adminKp prog b q i1 f1 ledger))).count
        (Addr.stubOracle prog anchorProvider.keypair.publicKey q.val) = 2) := by
  have hne : Addr.stubOracle prog anchorProvider.keypair.publicKey b.val
      ≠ Addr.stubOracle prog anchorProvider.keypair.publicKey q.val := by
    intro hcontra
    exact hbq (by injection hcontra with h1 h2 h3)
  obtain ⟨hc1, hs1⟩ := createMarket_oracle_trace anchorProvider adminKp prog b q i1 f1 ledger
  obtain ⟨hl1, hl2⟩ := createMarket_ledger_facts anchorProvider adminKp prog b q i1 f1 ledger
  obtain ⟨hc2, hs2⟩ := createMarket_oracle_trace anchorProvider adminKp prog b q i2 f2
    (createMarketLedger anchorProvider adminKp prog b q i1 f1 ledger)
  have hBcheck : ∀ led : Ledger,
      (if led.hasAccount (Addr.stubOracle prog anchorProvider.keypair.publicKey b.val)
        then led
        else led.add (Addr.stubOracle prog anchorProvider.keypair.publicKey b.val)).hasAccount
          (Addr.stubOracle prog anchorProvider.keypair.publicKey q.val)
        = led.hasAccount (Addr.stubOracle prog anchorProvider.keypair.publicKey q.val) := by
    intro led
    split_ifs with h
    · rfl
    · simp only [Ledger.add, Ledger.hasAccount, List.contains_cons]
      have hb : ((Addr.stubOracle prog anchorProvider.keypair.publicKey q.val)
          == (Addr.stubOracle prog anchorProvider.keypair.publicKey b.val)) = false := by
        simp only [beq_eq_false_iff_ne]
        exact hne.symm
      simp [hb]
  rw [hBcheck ledger] at hc1
  rw [hBcheck (createMarketLedger anchorProvider adminKp prog b q i1 f1 ledger)] at hc2
  rw [if_pos hl1, if_pos hl2] at hc2
  simp only [List.nil_append] at hc2
  have happc : ∀ t1 t2 : List Instr,
      oracleCreates (t1 ++ t2) = oracleCreates t1 ++ oracleCreates t2 :=
    fun t1 t2 => List.filterMap_append t1 t2 _
  have happs : ∀ t1 t2 : List Instr,
      oracleSets (t1 ++ t2) = oracleSets t1 ++ oracleSets t2 :=
    fun t1 t2 => List.filterMap_append t1 t2 _
  generalize hgA : Addr.stubOracle prog anchorProvider.keypair.publicKey b.val = oA
    at hne hc1 hs1 hc2 hs2 ⊢
  generalize hgB : Addr.stubOracle prog anchorProvider.keypair.publicKey q.val = oB
    at hne hc1 hs1 hc2 hs2 ⊢
  refine ⟨?_, ?_, hs1, ?_, ?_, ?_, ?_⟩
  · rw [hc1]
    by_cases hA : ledger.hasAccount oA <;> by_cases hB : ledger.hasAccount oB <;>
      simp [hA, hB, List.mem_append, hne]
  · rw [hc1]
    by_cases hA : ledger.hasAccount oA <;> by_cases hB : ledger.hasAccount oB <;>
      simp [hA, hB, List.mem_append, hne.symm]
  · rw [happc, hc1, hc2]
    by_cases hA : ledger.hasAccount oA <;> by_cases hB : ledger.hasAccount oB <;>
      simp [hA, hB, List.count_append, List.count_cons, List.count_nil, hne]
  · rw [happc, hc1, hc2]
    by_cases hA : ledger.hasAccount oA <;> by_cases hB : ledger.hasAccount oB <;>
      simp [hA, hB, List.count_append, List.count_cons, List.count_nil, hne.symm]
  · rw [happs, hs1, hs2]
    simp [List.count_append, List.count_cons, List.count_nil, hne, hne.symm]
  · rw [happs, hs1, hs2]
    simp [List.count_append, List.count_cons, List.count_nil, hne, hne.symm]

/-- Witness for the amended C5 at distinct concrete mints: across two
sequential invocations the base oracle receives exactly two price-set calls,
and at most one creation. -/
theorem createMarket_oracle_idempotent_witness :
    mintX.val ≠ mintY.val ∧
    ((oracleSets (createMarketTrace provA kpB (Addr.key 2) mintX mintY 0 freshF ledger0
          ++ createMarketTrace provA kpB (Addr.key 2) mintX mintY 1 freshG
              (createMarketLedger provA kpB (Addr.key 2) mintX mintY 0 freshF ledger0))).count
        (Addr.stubOracle (Addr.key 2) provA.keypair.publicKey mintX.val) = 2) ∧
    ((oracleCreates (createMarketTrace provA kpB (Addr.key 2) mintX mintY 0 freshF ledger0
          ++ createMarketTrace provA kpB (Addr.key 2) mintX mintY 1 freshG
              (createMarketLedger provA kpB (Addr.key 2) mintX mintY 0 freshF ledger0))).count
        (Addr.stubOracle (Addr.key 2) provA.keypair.publicKey mintX.val) ≤ 1) :=
  ⟨by decide,
   (createMarket_oracle_idempotent provA kpB (Addr.key 2) mintX mintY 0 1 freshF
      freshG ledger0 (by decide)).2.2.2.2.2.1,
   (createMarket_oracle_idempotent provA kpB (Addr.key 2) mintX mintY 0 1 freshF
      freshG ledger0 (by decide)).2.2.2.1⟩

/-- Witness for the amended C2 at a concrete input: the recorded oracle
address derives from the provider public key, and the first oracle-create
instruction in the trace is signed and paid by the provider public key. -/
theorem createMarket_uses_provider_keypair_witness :
    ((createMarket provA kpB (Addr.key 2) mintX mintY 0 freshF ledger0).1.oracle_a
      = Addr.stubOracle (Addr.key 2) provA.keypair.publicKey mintX.val) ∧
    (Addr.key 1 = provA.keypair.publicKey ∧ Addr.key 1 = provA.keypair.publicKey) :=
  ⟨(createMarket_uses_provider_keypair provA kpB (Addr.key 2) mintX mintY 0
      freshF ledger0).1,
   (createMarket_uses_provider_keypair provA kpB (Addr.key 2) mintX mintY 0
      freshF ledger0).2.2.1 (Addr.key 1)
     (Addr.stubOracle (Addr.key 2) (Addr.key 1) (Addr.key 20)) (Addr.key 20)
     (Addr.key 1) (by decide)⟩
